import Mathlib

/-!
Shallow embedding of the `trace` package of kubernetes/utils
(file `src/trace/trace.go`).

Modelling conventions:
* `time.Time` is a `Nat` (nanoseconds since some epoch).  The Go zero value
  `time.Time{}` is modelled as `0`; the source compares returned step times
  against the zero value in `writeTrace`, and the model does the same.
* `time.Duration` (an `int64` of nanoseconds) is an `Int`; Go integer
  division on durations truncates toward zero, which is `Int.tdiv`.
* The global verbosity override `klog.V(4).Enabled()` is threaded through
  every function as an explicit boolean parameter `v`.
* The output buffer `bytes.Buffer` is modelled as a `List OutEntry`; each
  entry records the semantic payload of one group of `WriteString` calls
  (which item was written, with which message, fields, timestamps and
  computed durations).  The byte-level formatting (`fmt.Sprintf`
  verbs, millisecond rendering, clock formatting) is display detail and is
  not modelled, but every datum the source prints appears in the entry.
* `rand.Int31()` in `logWithStepThreshold` is an effect; the trace number
  is taken as an explicit parameter `tracenum`.
* `time.Now()` is an effect; every function that reads the clock takes the
  current instant as an explicit parameter (`now` / `endTime`).
* Go methods on a possibly nil pointer receiver take an `Option Trace`;
  a nil-pointer dereference (a Go panic) is modelled as `none`.
-/

namespace TraceGo

/-- Field is a key value pair giving additional details about the trace
(struct `Field` in the source).  The Go `Value interface\x7b\x7d` is modelled by
its displayed string. -/
structure Field where
  key : String
  value : String
deriving DecidableEq

/-- Struct `traceStep` of the source: an atomic leaf event. -/
structure traceStep where
  stepTime : Nat
  msg : String
  fields : List Field
deriving DecidableEq

/-- Struct `Trace` of the source.  In this revision a `Trace` has exactly
the fields `name`, `fields`, `startTime`, `steps`, `nestedTrace`; it has no
threshold, no end time and no parent reference. -/
inductive Trace where
  | mk (name : String) (fields : List Field) (startTime : Nat)
      (steps : List traceStep) (nestedTrace : List Trace)

@[simp] def Trace.name : Trace → String
  | .mk n _ _ _ _ => n

@[simp] def Trace.fields : Trace → List Field
  | .mk _ f _ _ _ => f

@[simp] def Trace.startTime : Trace → Nat
  | .mk _ _ st _ _ => st

@[simp] def Trace.steps : Trace → List traceStep
  | .mk _ _ _ s _ => s

@[simp] def Trace.nestedTrace : Trace → List Trace
  | .mk _ _ _ _ nt => nt

/-- The interface `stepTrace` of the source, realized as the tagged union
of its two implementations (`traceStep` values and nested `*Trace`). -/
inductive stepTrace where
  | step (s : traceStep)
  | sub (t : Trace)

/-- Method `time()`: `traceStep.time` returns `stepTime`,
`Trace.time` returns `startTime`. -/
@[simp] def stepTrace.time : stepTrace → Nat
  | .step s => s.stepTime
  | .sub t => t.startTime

/-- Function `sortStepTrace` of the source: append the steps and the nested
traces into one slice and sort it by `time()`.  The source uses
`sort.Slice` with the strict `Before` comparison, whose result on ties is
unspecified; the model uses a stable insertion sort on the non-strict
comparison, which agrees with the source whenever the times are distinct. -/
def sortStepTrace (t : Trace) : List stepTrace :=
  List.insertionSort (fun a b => a.time ≤ b.time)
    (t.steps.map stepTrace.step ++ t.nestedTrace.map stepTrace.sub)

/-- One semantic entry of the output buffer (see the module comment). -/
inductive OutEntry where
  | header (tracenum : Nat) (name : String) (fields : List Field)
      (startTime : Nat) (totalTime : Int)
  | stepLine (formatter : String) (msg : String) (fields : List Field)
      (stepDuration : Int) (stepTime : Nat)
  | nestedOpen (formatter : String) (name : String) (fields : List Field)
      (totalTime : Int) (startTime : Nat)
  | nestedClose
  | endLine (tracenum : Nat) (totalTime : Int) (stepDuration : Int)
deriving DecidableEq

/-- Method `TotalTime` of the source: `time.Since(t.startTime)`, the
elapsed time from `startTime` to the current instant `now`.  The trace
stores no end time, so the result always tracks the clock. -/
def Trace.TotalTime (t : Trace) (now : Nat) : Int :=
  (now : Int) - (t.startTime : Int)

/-- Method `traceStep.writeStep` of the source: compute the elapsed
duration since `lastStepTime` and write the step only when the step
threshold is zero, the duration strictly exceeds it, or the verbosity
override `v` is active; always return the step time. -/
def traceStep.writeStep (s : traceStep) (formatter : String)
    (stepThreshold : Int) (lastStepTime : Nat) (v : Bool) :
    List OutEntry × Nat :=
  let stepDuration : Int := (s.stepTime : Int) - (lastStepTime : Int)
  if stepThreshold = 0 ∨ stepDuration > stepThreshold ∨ v = true then
    ([OutEntry.stepLine formatter s.msg s.fields stepDuration s.stepTime],
      s.stepTime)
  else
    ([], s.stepTime)

mutual
/-- Termination measure: the weight of a trace, one unit per step and per
trace node in the whole tree. -/
def Trace.twt : Trace → Nat
  | .mk _ _ _ steps nested => 1 + steps.length + twtList nested
/-- Termination measure on a list of traces. -/
def twtList : List Trace → Nat
  | [] => 0
  | t :: ts => 1 + Trace.twt t + twtList ts
end

/-- Weight of one polymorphic item. -/
def stepTrace.wt : stepTrace → Nat
  | .step _ => 1
  | .sub t => 1 + t.twt

/-- Weight of an item list. -/
def itemsWt (l : List stepTrace) : Nat :=
  (l.map stepTrace.wt).sum

theorem itemsWt_perm {l1 l2 : List stepTrace} (h : l1.Perm l2) :
    itemsWt l1 = itemsWt l2 := by
  unfold itemsWt
  induction h with
  | nil => rfl
  | cons x _ ih => simp only [List.map_cons, List.sum_cons]; omega
  | swap x y l => simp only [List.map_cons, List.sum_cons]; omega
  | trans _ _ ih1 ih2 => omega

theorem itemsWt_append (l1 l2 : List stepTrace) :
    itemsWt (l1 ++ l2) = itemsWt l1 + itemsWt l2 := by
  simp [itemsWt]

theorem itemsWt_map_step (l : List traceStep) :
    itemsWt (l.map stepTrace.step) = l.length := by
  induction l with
  | nil => rfl
  | cons a l ih =>
      simp only [itemsWt, List.map_cons, List.sum_cons, stepTrace.wt,
        List.length_cons] at ih ⊢
      omega

theorem itemsWt_map_sub (l : List Trace) :
    itemsWt (l.map stepTrace.sub) = twtList l := by
  induction l with
  | nil => rfl
  | cons a l ih =>
      simp only [itemsWt, List.map_cons, List.sum_cons, stepTrace.wt,
        twtList] at ih ⊢
      omega

theorem twt_def (t : Trace) :
    t.twt = 1 + t.steps.length + twtList t.nestedTrace := by
  cases t
  rfl

theorem itemsWt_sortStepTrace_lt (t : Trace) :
    itemsWt (sortStepTrace t) < t.twt := by
  have hperm : itemsWt (sortStepTrace t)
      = itemsWt (t.steps.map stepTrace.step ++ t.nestedTrace.map stepTrace.sub) :=
    itemsWt_perm (List.perm_insertionSort _ _)
  rw [hperm, itemsWt_append, itemsWt_map_step, itemsWt_map_sub, twt_def]
  omega

mutual
/-- The loop body of the source function `writeTrace` together with the two
`writeStep` implementations it dispatches to.  For each item of the sorted
slice, call `writeStep` with the running `lastStepTime`; a step returns its
own `stepTime`, a nested trace writes its whole block (via the method
`Trace.writeStep` of the source: an opening bracket, its main log line with
`TotalTime`, a recursive `writeTrace` at `formatter ++ " "`, a closing
bracket) and returns the zero time.  Following the source, the running
`lastStepTime` is replaced by the returned time only when that time is not
the zero value. -/
def writeTraceItems (stepThreshold : Int) (now : Nat) (v : Bool)
    (formatter : String) :
    List stepTrace → Nat → List OutEntry × Nat
  | [], lastStepTime => ([], lastStepTime)
  | .step s :: rest, lastStepTime =>
      let r := s.writeStep formatter stepThreshold lastStepTime v
      let last2 := if r.2 = 0 then lastStepTime else r.2
      let rr := writeTraceItems stepThreshold now v formatter rest last2
      (r.1 ++ rr.1, rr.2)
  | .sub u :: rest, lastStepTime =>
      let inner := writeTrace u (formatter ++ " ") stepThreshold now v
      let entries :=
        OutEntry.nestedOpen formatter u.name u.fields (u.TotalTime now)
            u.startTime :: (inner.1 ++ [OutEntry.nestedClose])
      let rr := writeTraceItems stepThreshold now v formatter rest lastStepTime
      (entries ++ rr.1, rr.2)
termination_by l _ => itemsWt l
decreasing_by
  · simp only [itemsWt, List.map_cons, List.sum_cons, stepTrace.wt]; omega
  · simp only [itemsWt, List.map_cons, List.sum_cons, stepTrace.wt]; omega
  · simp only [itemsWt, List.map_cons, List.sum_cons, stepTrace.wt]; omega
/-- Function `writeTrace` of the source: start the running reference time
at `t.startTime`, traverse the merged and sorted items, and return the
buffer contents together with the final `lastStepTime`. -/
def writeTrace (t : Trace) (formatter : String) (stepThreshold : Int)
    (now : Nat) (v : Bool) : List OutEntry × Nat :=
  writeTraceItems stepThreshold now v formatter (sortStepTrace t) t.startTime
termination_by t.twt
decreasing_by
  exact itemsWt_sortStepTrace_lt t
end

/-- Method `logWithStepThreshold` of the source: take the end time from the
clock, write the header (name, fields, start time, total time), traverse
the items with `writeTrace`, and append the END line exactly when the step
threshold is zero, the closing step duration strictly exceeds it, or the
verbosity override is active.  The buffer is then handed to `klog.Info`
unconditionally, so the returned list is what gets printed. -/
def logWithStepThreshold (t : Trace) (stepThreshold : Int) (tracenum : Nat)
    (endTime : Nat) (v : Bool) : List OutEntry :=
  let totalTime : Int := (endTime : Int) - (t.startTime : Int)
  let formatter : String := "\nTrace[" ++ toString tracenum ++ "]: "
  let w := writeTrace t formatter stepThreshold endTime v
  let stepDuration : Int := (endTime : Int) - (w.2 : Int)
  OutEntry.header tracenum t.name t.fields t.startTime totalTime ::
    (w.1 ++
      (if stepThreshold = 0 ∨ stepDuration > stepThreshold ∨ v = true then
        [OutEntry.endLine tracenum totalTime stepDuration]
      else []))

/-- Method `Log` of the source: dump everything by logging with step
threshold `0`.  It emits immediately and unconditionally on whatever trace
it is called, and it does not modify the trace. -/
def Trace.Log (t : Trace) (tracenum : Nat) (endTime : Nat) (v : Bool) :
    List OutEntry :=
  logWithStepThreshold t 0 tracenum endTime v

/-- The step threshold computed inline by `LogIfLong` in the source:
`threshold / time.Duration(len(t.steps)+1)`.  Only the steps are counted;
nested traces take no part in the division. -/
def logIfLongStepThreshold (t : Trace) (threshold : Int) : Int :=
  Int.tdiv threshold ((t.steps.length : Int) + 1)

/-- Method `LogIfLong` of the source: when `time.Since(t.startTime)` is at
least the threshold, log with the inline step threshold; otherwise do
nothing at all (`none`). -/
def Trace.LogIfLong (t : Trace) (threshold : Int) (tracenum : Nat)
    (now : Nat) (v : Bool) : Option (List OutEntry) :=
  if (now : Int) - (t.startTime : Int) ≥ threshold then
    some (logWithStepThreshold t (logIfLongStepThreshold t threshold)
      tracenum now v)
  else none

/-- Function `New` of the source: a fresh root-level trace whose start time
is the current instant. -/
def New (name : String) (fields : List Field) (now : Nat) : Trace :=
  Trace.mk name fields now [] []

/-- Method `Step` of the source: append a step carrying the current
instant.  (The capacity-6 preallocation of the source is an allocation
detail with no observable effect on the sequence.) -/
def Trace.Step (t : Trace) (msg : String) (fields : List Field)
    (now : Nat) : Trace :=
  Trace.mk t.name t.fields t.startTime
    (t.steps ++ [⟨now, msg, fields⟩]) t.nestedTrace

/-- Method `Nest` of the source, on a possibly nil receiver.  The source is
`newTrace := New(msg, fields...); t.nestedTrace = append(t.nestedTrace,
newTrace); return newTrace` with no nil check, so on a nil receiver the
field write dereferences the nil pointer and panics (`none`).  On a
non-nil receiver it returns the updated receiver together with the new
child; the child stores no reference to its parent (the struct has no such
field). -/
def Trace.Nest : Option Trace → String → List Field → Nat →
    Option (Trace × Trace)
  | none, _, _, _ => none
  | some t, msg, fields, now =>
      let newTrace := New msg fields now
      some (Trace.mk t.name t.fields t.startTime t.steps
        (t.nestedTrace ++ [newTrace]), newTrace)

/-- Step-threshold algorithm exactly as the specification words it
(section 4.1 step 2), written over this data model for comparison with
`logIfLongStepThreshold`: start with `remaining to be the threshold;
subtract the explicit thresholds of nested sub-traces that carry one and
exclude those sub-traces from the division count; let `n` be the count of
remaining undivided children plus one; if `remaining` fell below one
quarter of the original threshold, reset it to that quarter and reset `n`
to the full child count plus one; divide.  In this revision of the code a
trace carries no threshold field, so no nested sub-trace carries an
explicit threshold: nothing is subtracted and no sub-trace is excluded,
while every step and every nested trace counts as a child. -/
def specStepThreshold (t : Trace) (threshold : Int) : Int :=
  let remaining : Int := threshold
  let n : Int := ((t.steps.length + t.nestedTrace.length : Nat) : Int) + 1
  let quarter : Int := Int.tdiv threshold 4
  let remaining2 : Int := if remaining < quarter then quarter else remaining
  let n2 : Int :=
    if remaining < quarter then
      ((t.steps.length + t.nestedTrace.length : Nat) : Int) + 1
    else n
  Int.tdiv remaining2 n2

/-! Helper lemmas shared by the claim theorems. -/

/-- The buffer built by `logWithStepThreshold` always starts with the
header entry and is handed to `klog.Info` unconditionally, so an invoked
finalization always produces output. -/
theorem logWithStepThreshold_ne_nil (t : Trace) (thr : Int) (num e : Nat)
    (v : Bool) : logWithStepThreshold t thr num e v ≠ [] := by
  simp only [logWithStepThreshold]
  exact List.cons_ne_nil _ _

/-- Read the total duration off the final END entry of an output buffer. -/
def endTotal (out : List OutEntry) : Option Int :=
  match out.getLast? with
  | some (OutEntry.endLine _ tot _) => some tot
  | _ => none

/-- When the step threshold is zero or the verbosity override is active,
the END line is written, and its total is the end time minus the start
time of the finalized trace. -/
theorem endTotal_logWithStepThreshold (t : Trace) (thr : Int) (num e : Nat)
    (v : Bool) (h : thr = 0 ∨ v = true) :
    endTotal (logWithStepThreshold t thr num e v)
      = some ((e : Int) - (t.startTime : Int)) := by
  have hcond : thr = 0 ∨
      ((e : Int) -
        (((writeTrace t ("\nTrace[" ++ toString num ++ "]: ") thr e v).2 : Nat) : Int))
        > thr ∨ v = true := by
    rcases h with h | h
    · exact Or.inl h
    · exact Or.inr (Or.inr h)
  simp only [logWithStepThreshold]
  rw [if_pos hcond]
  unfold endTotal
  rw [← List.cons_append, List.getLast?_concat]

/-! Claim theorems. -/

/-- C1 (counterexample): the claim fails on this code.  For the trace with
no step and one nested sub-trace, finalized with `LogIfLong 100` after 200
elapsed, the step threshold actually used is `100 / (0 + 1) = 100`, while
the algorithm of spec section 4.1 step 2 (with nothing to subtract, since
no nested sub-trace carries an explicit threshold, and the nested child
counted in the division) yields `100 / 2 = 50`. -/
theorem C1_counterexample :
    Trace.LogIfLong (Trace.mk "r" [] 0 [] [Trace.mk "n" [] 1 [] []])
        100 1 200 false
      = some (logWithStepThreshold
          (Trace.mk "r" [] 0 [] [Trace.mk "n" [] 1 [] []]) 100 1 200 false)
    ∧ logIfLongStepThreshold
        (Trace.mk "r" [] 0 [] [Trace.mk "n" [] 1 [] []]) 100 = 100
    ∧ specStepThreshold
        (Trace.mk "r" [] 0 [] [Trace.mk "n" [] 1 [] []]) 100 = 50
    ∧ (100 : Int) ≠ 50 := by
  refine ⟨rfl, by decide, by decide, by decide⟩

/-- C1 (amended): for every trace finalized with `LogIfLong threshold`
whose total elapsed time meets the threshold, the per-step threshold used
to filter children is `threshold / (number of steps + 1)`: nested
sub-traces are not counted in the division, and nothing is subtracted
(in this revision a trace carries no threshold field, so nested sub-traces
have no explicit thresholds to subtract, and there is no one-quarter
reset). -/
theorem C1_amended_step_threshold (t : Trace) (threshold : Int)
    (tracenum now : Nat) (v : Bool)
    (h : (now : Int) - (t.startTime : Int) ≥ threshold) :
    Trace.LogIfLong t threshold tracenum now v
      = some (logWithStepThreshold t
          (Int.tdiv threshold ((t.steps.length : Int) + 1)) tracenum now v) := by
  unfold Trace.LogIfLong
  rw [if_pos h]
  rfl

/-- C1 (witness for the amended theorem). -/
theorem C1_amended_step_threshold_witness :
    ((200 : Int) - (((Trace.mk "r" [] 0 [] [Trace.mk "n" [] 1 [] []]).startTime : Nat) : Int) ≥ 100)
    ∧ Trace.LogIfLong (Trace.mk "r" [] 0 [] [Trace.mk "n" [] 1 [] []])
        100 1 200 false
      = some (logWithStepThreshold
          (Trace.mk "r" [] 0 [] [Trace.mk "n" [] 1 [] []])
          (Int.tdiv 100 (((Trace.mk "r" [] 0 [] [Trace.mk "n" [] 1 [] []]).steps.length : Int) + 1))
          1 200 false) :=
  ⟨by decide,
    C1_amended_step_threshold (Trace.mk "r" [] 0 [] [Trace.mk "n" [] 1 [] []])
      100 1 200 false (by decide)⟩

/-- C2 (counterexample): the claim fails on this code.  Root trace R
(start 0) with a nested trace N (start 100), finalized via
`LogIfLong` with threshold 1s after 0.5s elapsed, emits nothing at all:
the record of N is not promoted and the children are not scanned. -/
theorem C2_counterexample :
    Trace.LogIfLong (Trace.mk "r" [] 0 [] [Trace.mk "n" [] 100 [] []])
        1000000000 1 500000000 false = none := by
  decide

/-- C2 (amended): finalizing a root trace with `LogIfLong` below its
threshold emits no output at all — its children are not scanned and no
nested record is promoted.  A nested trace record is emitted by the
nested trace itself: its own `LogIfLong` call, when its own elapsed time
meets its own threshold, logs it immediately and unconditionally of any
enclosing trace. -/
theorem C2_amended_no_promotion (t : Trace) (thr : Int) (num now : Nat)
    (v : Bool) (h : (now : Int) - (t.startTime : Int) < thr)
    (n : Trace) (thrN : Int) (numN nowN : Nat) (vN : Bool)
    (hN : (nowN : Int) - (n.startTime : Int) ≥ thrN) :
    Trace.LogIfLong t thr num now v = none
    ∧ ∃ out, Trace.LogIfLong n thrN numN nowN vN = some out ∧ out ≠ [] := by
  constructor
  · unfold Trace.LogIfLong
    rw [if_neg (by omega)]
  · exact ⟨logWithStepThreshold n (logIfLongStepThreshold n thrN) numN nowN vN,
      by unfold Trace.LogIfLong; rw [if_pos hN],
      logWithStepThreshold_ne_nil n (logIfLongStepThreshold n thrN) numN nowN vN⟩

/-- C2 (witness for the amended theorem): the spec scenario, R with
threshold 1s and elapsed 0.5s beside N with threshold 10ms and elapsed
50ms. -/
theorem C2_amended_no_promotion_witness :
    Trace.LogIfLong (Trace.mk "r" [] 0 [] [Trace.mk "n" [] 100 [] []])
        1000000000 1 500000000 false = none
    ∧ ∃ out, Trace.LogIfLong (Trace.mk "n" [] 100 [] [])
        10000000 2 50000100 false = some out ∧ out ≠ [] :=
  C2_amended_no_promotion
    (Trace.mk "r" [] 0 [] [Trace.mk "n" [] 100 [] []]) 1000000000 1 500000000
    false (by decide)
    (Trace.mk "n" [] 100 [] []) 10000000 2 50000100 false (by decide)

/-- C3 (counterexample): the claim fails on this code.  A trace started at
0 and logged first at 10 and again at 20 stores nothing: `TotalTime`
evaluated after both calls (at instant 20) is 20, not the 10 one would
compute from the end time of the first call (visible in its END record). -/
theorem C3_counterexample :
    Trace.Log (Trace.mk "op" [] 0 [] []) 1 10 false
      = [OutEntry.header 1 "op" [] 0 10, OutEntry.endLine 1 10 10]
    ∧ Trace.TotalTime (Trace.mk "op" [] 0 [] []) 20 = 20
    ∧ ((20 : Int) ≠ 10) := by
  refine ⟨?_, by decide, by decide⟩
  simp [Trace.Log, logWithStepThreshold, writeTrace, writeTraceItems,
    sortStepTrace]

/-- C3 (amended): the trace stores no end time at all, so there is nothing
for a second finalization to overwrite: each `Log` call computes its own
end instant, whose END record reports that instant minus the start time,
while `TotalTime` always measures from the start time to the present
instant — after a second, later call it no longer equals the duration
derived from the end time of the first call. -/
theorem C3_amended_no_stored_end_time (t : Trace) (num : Nat) (e1 e2 : Nat)
    (v : Bool) (h : e1 < e2) :
    endTotal (Trace.Log t num e1 v) = some ((e1 : Int) - (t.startTime : Int))
    ∧ Trace.TotalTime t e2 = (e2 : Int) - (t.startTime : Int)
    ∧ ((e1 : Int) - (t.startTime : Int)) ≠ Trace.TotalTime t e2 := by
  refine ⟨endTotal_logWithStepThreshold t 0 num e1 v (Or.inl rfl), rfl, ?_⟩
  unfold Trace.TotalTime
  omega

/-- C3 (witness for the amended theorem). -/
theorem C3_amended_no_stored_end_time_witness :
    (10 < 20)
    ∧ (endTotal (Trace.Log (Trace.mk "op" [] 0 [] []) 1 10 false)
        = some ((10 : Int) - (((Trace.mk "op" [] 0 [] []).startTime : Nat) : Int))
      ∧ Trace.TotalTime (Trace.mk "op" [] 0 [] []) 20
        = (20 : Int) - (((Trace.mk "op" [] 0 [] []).startTime : Nat) : Int)
      ∧ ((10 : Int) - (((Trace.mk "op" [] 0 [] []).startTime : Nat) : Int))
        ≠ Trace.TotalTime (Trace.mk "op" [] 0 [] []) 20) :=
  ⟨by decide,
    C3_amended_no_stored_end_time (Trace.mk "op" [] 0 [] []) 1 10 20 false
      (by decide)⟩

/-- C4 (code bug): evaluating the code at the failing input.  `Nest` on an
absent (nil) trace reference dereferences the nil receiver when appending
to its `nestedTrace` field and panics (`none`), instead of returning a
fresh root trace as the claim — and the package README shipped beside the
code — promise. -/
theorem C4_nil_nest_panics :
    Trace.Nest none "op" [] 5 = none := rfl

/-- C5 (counterexample): the claim fails on this code.  `Nest` does append
the child to the receiver, but the child holds no reference to its parent
(the struct has no parent field), and calling `Log` on the nested child
produces direct output immediately: here logging the child emits a
nonempty record at once rather than deferring to the ancestor. -/
theorem C5_counterexample :
    Trace.Nest (some (Trace.mk "p" [] 0 [] [])) "n" [] 3
      = some (Trace.mk "p" [] 0 [] [Trace.mk "n" [] 3 [] []],
          Trace.mk "n" [] 3 [] [])
    ∧ Trace.Log (Trace.mk "n" [] 3 [] []) 1 5 false ≠ [] := by
  exact ⟨rfl, logWithStepThreshold_ne_nil (Trace.mk "n" [] 3 [] []) 0 1 5 false⟩

/-- C5 (amended): for every non-nil trace, `Nest` creates a child trace
and appends it to the receiver item sequence and returns it, but the
child stores no parent reference (the struct has no such field), and
calling `Log` on any trace — nested or not — immediately emits its
record: output is never deferred to an ancestor. -/
theorem C5_amended_nest_appends_log_emits (t : Trace) (msg : String)
    (fields : List Field) (now : Nat) :
    Trace.Nest (some t) msg fields now
      = some (Trace.mk t.name t.fields t.startTime t.steps
          (t.nestedTrace ++ [New msg fields now]), New msg fields now)
    ∧ ∀ (u : Trace) (num e : Nat) (v : Bool), Trace.Log u num e v ≠ [] :=
  ⟨rfl, fun u num e v => logWithStepThreshold_ne_nil u 0 num e v⟩

/-- C6 (confirmed): for every trace finalized with `LogIfLong D` whose
total elapsed time is strictly below `D`, with the verbosity override
inactive, no output at all is emitted for that trace. -/
theorem C6_below_threshold_silent (t : Trace) (D : Int) (num now : Nat)
    (h : (now : Int) - (t.startTime : Int) < D) :
    Trace.LogIfLong t D num now false = none := by
  unfold Trace.LogIfLong
  rw [if_neg (by omega)]

/-- C6 (witness): the spec scenario, total 8ms against threshold 50ms. -/
theorem C6_below_threshold_silent_witness :
    ((8000000 : Int) - (((Trace.mk "op" [] 0 [] []).startTime : Nat) : Int)
        < 50000000)
    ∧ Trace.LogIfLong (Trace.mk "op" [] 0 [] []) 50000000 1 8000000 false
        = none :=
  ⟨by decide,
    C6_below_threshold_silent (Trace.mk "op" [] 0 [] []) 50000000 1 8000000
      (by decide)⟩

/-- C7 (counterexample): the claim fails on this code.  With the
verbosity override active, a trace whose elapsed time (10) is below the
`LogIfLong` threshold (100) still emits nothing: the override does not
bypass the top-level threshold test. -/
theorem C7_counterexample :
    Trace.LogIfLong (Trace.mk "op" [] 0 [] []) 100 1 10 true = none := by
  decide

/-- C7 (amended): the verbosity override does not force emission of a
trace whose elapsed time is below the `LogIfLong` threshold — that still
emits nothing.  The override acts only inside an emission that is already
happening: there it forces every step to be written regardless of the
step threshold, and it forces the END line. -/
theorem C7_amended_override_scope (t : Trace) (D : Int) (num now : Nat)
    (h : (now : Int) - (t.startTime : Int) < D)
    (s : traceStep) (f : String) (thr : Int) (last : Nat)
    (t2 : Trace) (thr2 : Int) (num2 e2 : Nat) :
    Trace.LogIfLong t D num now true = none
    ∧ (traceStep.writeStep s f thr last true).1
      = [OutEntry.stepLine f s.msg s.fields
          ((s.stepTime : Int) - (last : Int)) s.stepTime]
    ∧ endTotal (logWithStepThreshold t2 thr2 num2 e2 true)
      = some ((e2 : Int) - (t2.startTime : Int)) := by
  refine ⟨?_, ?_, endTotal_logWithStepThreshold t2 thr2 num2 e2 true (Or.inr rfl)⟩
  · unfold Trace.LogIfLong
    rw [if_neg (by omega)]
  · unfold traceStep.writeStep
    rw [if_pos (Or.inr (Or.inr rfl))]

/-- C7 (witness for the amended theorem). -/
theorem C7_amended_override_scope_witness :
    ((10 : Int) - (((Trace.mk "op" [] 0 [] []).startTime : Nat) : Int) < 100)
    ∧ (Trace.LogIfLong (Trace.mk "op" [] 0 [] []) 100 1 10 true = none
      ∧ (traceStep.writeStep ⟨7, "s", []⟩ "F" 50 2 true).1
        = [OutEntry.stepLine "F" (traceStep.msg ⟨7, "s", []⟩)
            (traceStep.fields ⟨7, "s", []⟩)
            ((traceStep.stepTime ⟨7, "s", []⟩ : Int) - ((2 : Nat) : Int))
            (traceStep.stepTime ⟨7, "s", []⟩)]
      ∧ endTotal (logWithStepThreshold (Trace.mk "z" [] 1 [] []) 3 2 9 true)
        = some ((9 : Int) - (((Trace.mk "z" [] 1 [] []).startTime : Nat) : Int))) :=
  ⟨by decide,
    C7_amended_override_scope (Trace.mk "op" [] 0 [] []) 100 1 10 (by decide)
      ⟨7, "s", []⟩ "F" 50 2 (Trace.mk "z" [] 1 [] []) 3 2 9⟩

/-- C8 (confirmed): during emission a step is written to the output
buffer if and only if the step threshold is zero (the only way it can be
absent in this revision), or the elapsed delta of the step — its time
minus the previous reference time — strictly exceeds the step threshold,
or the verbosity override is active. -/
theorem C8_step_written_iff (s : traceStep) (f : String) (thr : Int)
    (last : Nat) (v : Bool) :
    (traceStep.writeStep s f thr last v).1 ≠ []
      ↔ (thr = 0 ∨ (s.stepTime : Int) - (last : Int) > thr ∨ v = true) := by
  unfold traceStep.writeStep
  by_cases hc : thr = 0 ∨ (s.stepTime : Int) - (last : Int) > thr ∨ v = true
  · rw [if_pos hc]
    simp [hc]
  · rw [if_neg hc]
    simp [hc]

/-! Ordering facts about the sorting comparison used by `sortStepTrace`. -/

instance : IsTotal stepTrace (fun a b => a.time ≤ b.time) :=
  ⟨fun a b => Nat.le_total a.time b.time⟩

instance : IsTrans stepTrace (fun a b => a.time ≤ b.time) :=
  ⟨fun _ _ _ hab hbc => Nat.le_trans hab hbc⟩

instance : IsAntisymm stepTrace (fun a b => a.time < b.time) :=
  ⟨fun _ _ h1 h2 => absurd h1 (Nat.lt_asymm h2)⟩

/-- With an empty nested-trace list and three steps of strictly increasing
times stored in any order, `sortStepTrace` returns exactly the three steps
in chronological order. -/
theorem sortStepTrace_three_steps (t : Trace) (s1 s2 s3 : traceStep)
    (hn : t.nestedTrace = []) (hp : t.steps.Perm [s1, s2, s3])
    (h12 : s1.stepTime < s2.stepTime) (h23 : s2.stepTime < s3.stepTime) :
    sortStepTrace t
      = [stepTrace.step s1, stepTrace.step s2, stepTrace.step s3] := by
  have hperm : (sortStepTrace t).Perm
      [stepTrace.step s1, stepTrace.step s2, stepTrace.step s3] := by
    unfold sortStepTrace
    rw [hn]
    exact (List.perm_insertionSort _ _).trans
      (by simpa using hp.map stepTrace.step)
  have hsorted_le :
      List.Sorted (fun a b : stepTrace => a.time ≤ b.time) (sortStepTrace t) := by
    unfold sortStepTrace
    exact List.sorted_insertionSort _ _
  have hnodup : ((sortStepTrace t).map stepTrace.time).Nodup := by
    have hmt : ((sortStepTrace t).map stepTrace.time).Perm
        [s1.stepTime, s2.stepTime, s3.stepTime] := by
      simpa [stepTrace.time] using hperm.map stepTrace.time
    rw [hmt.nodup_iff]
    simp
    omega
  have hsorted_lt :
      List.Sorted (fun a b : stepTrace => a.time < b.time) (sortStepTrace t) := by
    have hne := List.pairwise_map.mp hnodup
    exact (hsorted_le.and hne).imp fun hab => Nat.lt_of_le_of_ne hab.1 hab.2
  have htarget :
      List.Sorted (fun a b : stepTrace => a.time < b.time)
        [stepTrace.step s1, stepTrace.step s2, stepTrace.step s3] := by
    simp [List.Sorted, stepTrace.time]
    omega
  exact List.eq_of_perm_of_sorted hperm hsorted_lt htarget

/-- C9 (confirmed): for a trace with three steps of strictly increasing
times `t1 < t2 < t3` — however they sit in storage — emission traverses
them in chronological order and computes the per-child elapsed deltas as
`t1 - startTime`, `t2 - t1`, `t3 - t2`, in that order, the reference point
of the first item being the startTime of the trace. -/
theorem C9_chronological_deltas (t : Trace) (s1 s2 s3 : traceStep)
    (f : String) (now : Nat) (v : Bool)
    (h0 : 0 < s1.stepTime)
    (h12 : s1.stepTime < s2.stepTime) (h23 : s2.stepTime < s3.stepTime)
    (hn : t.nestedTrace = []) (hp : t.steps.Perm [s1, s2, s3]) :
    writeTrace t f 0 now v
      = ([OutEntry.stepLine f s1.msg s1.fields
            ((s1.stepTime : Int) - (t.startTime : Int)) s1.stepTime,
          OutEntry.stepLine f s2.msg s2.fields
            ((s2.stepTime : Int) - (s1.stepTime : Int)) s2.stepTime,
          OutEntry.stepLine f s3.msg s3.fields
            ((s3.stepTime : Int) - (s2.stepTime : Int)) s3.stepTime],
        s3.stepTime) := by
  have hsort := sortStepTrace_three_steps t s1 s2 s3 hn hp h12 h23
  have e1 : ¬ s1.stepTime = 0 := by omega
  have e2 : ¬ s2.stepTime = 0 := by omega
  have e3 : ¬ s3.stepTime = 0 := by omega
  unfold writeTrace
  rw [hsort]
  simp [writeTraceItems, traceStep.writeStep, e1, e2, e3]

/-- C9 (witness): steps with times 1, 2, 3 stored in scrambled order
against a start time of 0. -/
theorem C9_chronological_deltas_witness :
    (0 < traceStep.stepTime ⟨1, "a", []⟩
      ∧ traceStep.stepTime ⟨1, "a", []⟩ < traceStep.stepTime ⟨2, "b", []⟩
      ∧ traceStep.stepTime ⟨2, "b", []⟩ < traceStep.stepTime ⟨3, "c", []⟩
      ∧ (Trace.mk "t" [] 0 [⟨2, "b", []⟩, ⟨1, "a", []⟩, ⟨3, "c", []⟩] []).nestedTrace = []
      ∧ (Trace.mk "t" [] 0 [⟨2, "b", []⟩, ⟨1, "a", []⟩, ⟨3, "c", []⟩] []).steps.Perm
          [⟨1, "a", []⟩, ⟨2, "b", []⟩, ⟨3, "c", []⟩])
    ∧ writeTrace (Trace.mk "t" [] 0 [⟨2, "b", []⟩, ⟨1, "a", []⟩, ⟨3, "c", []⟩] [])
        "F" 0 10 false
      = ([OutEntry.stepLine "F" "a" [] ((1 : Int) - (0 : Int)) 1,
          OutEntry.stepLine "F" "b" [] ((2 : Int) - (1 : Int)) 2,
          OutEntry.stepLine "F" "c" [] ((3 : Int) - (2 : Int)) 3],
        3) :=
  ⟨⟨by decide, by decide, by decide, rfl, by decide⟩, by
    have := C9_chronological_deltas
      (Trace.mk "t" [] 0 [⟨2, "b", []⟩, ⟨1, "a", []⟩, ⟨3, "c", []⟩] [])
      ⟨1, "a", []⟩ ⟨2, "b", []⟩ ⟨3, "c", []⟩ "F" 10 false
      (by decide) (by decide) (by decide) rfl (by decide)
    simpa using this⟩

/-- C10 (confirmed): a nested child trace never advances the running
reference time of the traversal.  In a traversal of items
`[step s1, nested u, step s2]` the delta of `s2` is measured from the time
of `s1`, and in `[nested u, step s2]` it is measured from the incoming
reference time (the startTime of the enclosing trace when the traversal
starts there) — in neither case from any timestamp of `u`. -/
theorem C10_nested_never_advances_reference (u : Trace) (s1 s2 : traceStep)
    (f : String) (now : Nat) (v : Bool) (last : Nat)
    (h1 : ¬ s1.stepTime = 0) (h2 : ¬ s2.stepTime = 0) :
    writeTraceItems 0 now v f
        [stepTrace.step s1, stepTrace.sub u, stepTrace.step s2] last
      = (OutEntry.stepLine f s1.msg s1.fields
            ((s1.stepTime : Int) - (last : Int)) s1.stepTime ::
          OutEntry.nestedOpen f u.name u.fields (u.TotalTime now) u.startTime ::
          ((writeTrace u (f ++ " ") 0 now v).1
            ++ [OutEntry.nestedClose,
                OutEntry.stepLine f s2.msg s2.fields
                  ((s2.stepTime : Int) - (s1.stepTime : Int)) s2.stepTime]),
        s2.stepTime)
    ∧ writeTraceItems 0 now v f [stepTrace.sub u, stepTrace.step s2] last
      = (OutEntry.nestedOpen f u.name u.fields (u.TotalTime now) u.startTime ::
          ((writeTrace u (f ++ " ") 0 now v).1
            ++ [OutEntry.nestedClose,
                OutEntry.stepLine f s2.msg s2.fields
                  ((s2.stepTime : Int) - (last : Int)) s2.stepTime]),
        s2.stepTime) := by
  constructor
  · simp [writeTraceItems, traceStep.writeStep, h1, h2]
  · simp [writeTraceItems, traceStep.writeStep, h2]

/-- C10 (witness). -/
theorem C10_nested_never_advances_reference_witness :
    (¬ traceStep.stepTime ⟨4, "a", []⟩ = 0
      ∧ ¬ traceStep.stepTime ⟨9, "b", []⟩ = 0)
    ∧ (writeTraceItems 0 12 false "F"
        [stepTrace.step ⟨4, "a", []⟩,
          stepTrace.sub (Trace.mk "u" [] 6 [] []),
          stepTrace.step ⟨9, "b", []⟩] 2
      = (OutEntry.stepLine "F" "a" [] ((4 : Int) - (2 : Int)) 4 ::
          OutEntry.nestedOpen "F" "u" []
            ((Trace.mk "u" [] 6 [] []).TotalTime 12)
            (Trace.mk "u" [] 6 [] []).startTime ::
          ((writeTrace (Trace.mk "u" [] 6 [] []) ("F" ++ " ") 0 12 false).1
            ++ [OutEntry.nestedClose,
                OutEntry.stepLine "F" "b" [] ((9 : Int) - (4 : Int)) 9]),
        9)
    ∧ writeTraceItems 0 12 false "F"
        [stepTrace.sub (Trace.mk "u" [] 6 [] []),
          stepTrace.step ⟨9, "b", []⟩] 2
      = (OutEntry.nestedOpen "F" "u" []
            ((Trace.mk "u" [] 6 [] []).TotalTime 12)
            (Trace.mk "u" [] 6 [] []).startTime ::
          ((writeTrace (Trace.mk "u" [] 6 [] []) ("F" ++ " ") 0 12 false).1
            ++ [OutEntry.nestedClose,
                OutEntry.stepLine "F" "b" [] ((9 : Int) - (2 : Int)) 9]),
        9)) :=
  ⟨⟨by decide, by decide⟩, by
    have := C10_nested_never_advances_reference (Trace.mk "u" [] 6 [] [])
      ⟨4, "a", []⟩ ⟨9, "b", []⟩ "F" 12 false 2 (by decide) (by decide)
    simpa using this⟩

end TraceGo

